import Mathlib

/-!
Verification of the PICC post-processing core: the ASTM-style compliance-offset
estimator (`compliance_offset` in `compliance-ok.py`) and the stiffness-intersection
crack-opening/closure extraction (`post-process.py`).

The numeric code works on IEEE floats; the shallow embedding uses exact rationals.
Library calls (`np.polyfit`, `sklearn.LinearRegression`, `np.gradient`,
`scipy.signal.find_peaks`, `np.arange`, `np.argmin`) are embedded by their exact
mathematical contracts, with degenerate float outcomes (empty input errors,
zero-variance NaN poisoning) represented as `Option.none`.
-/

set_option autoImplicit false
set_option maxRecDepth 100000

namespace Picc

attribute [local semireducible] Rat.add Rat.mul Rat.inv Rat.sub Rat.ofScientific

/-! ### Generic list helpers -/

/-- Run an `Option`-valued function over a list, failing if any element fails.
Models a Python loop of fallible fits accumulated into an array. -/
def optMapM {α β : Type} (f : α → Option β) : List α → Option (List β)
  | [] => some []
  | a :: l =>
    match f a, optMapM f l with
    | some b, some bs => some (b :: bs)
    | _, _ => none

/-- Index and value of the first minimum of a list (like `np.argmin` paired with
the minimum value); `none` on the empty list. -/
def argminPair : List ℚ → Option (ℕ × ℚ)
  | [] => none
  | x :: xs =>
    match argminPair xs with
    | none => some (0, x)
    | some jv => if x ≤ jv.2 then some (0, x) else some (jv.1 + 1, jv.2)

/-- First index of the minimum of a list, `np.argmin` (0 on the empty list). -/
def argminIdx (l : List ℚ) : ℕ :=
  match argminPair l with
  | none => 0
  | some jv => jv.1

/-- Maximum of a list, `np.max` (the source only applies it to nonempty data;
the empty default 0 is never relied upon). -/
def listMax : List ℚ → ℚ
  | [] => 0
  | x :: xs => xs.foldl max x

/-- Minimum of a list, `np.min` (same convention as `listMax`). -/
def listMin : List ℚ → ℚ
  | [] => 0
  | x :: xs => xs.foldl min x

/-- Number of elements `np.arange(lo, hi, step)` produces for a positive step:
`⌈(hi - lo)/step⌉` when `lo < hi`, otherwise 0. -/
def arangeLen (lo hi step : ℚ) : ℕ :=
  if 0 < step ∧ lo < hi then (Int.ceil ((hi - lo) / step)).toNat else 0

/-- Exact-arithmetic model of `np.arange(lo, hi, step)` for a positive step. -/
def arange (lo hi step : ℚ) : List ℚ :=
  (List.range (arangeLen lo hi step)).map (fun i : ℕ => lo + (i : ℚ) * step)

/-- Python float modulo `a % b` in exact arithmetic (for `b > 0`):
`a - b * ⌊a / b⌋`. -/
def qmod (a b : ℚ) : ℚ := a - b * Int.floor (a / b)

/-! ### Least-squares line fits

`np.polyfit(x, y, 1)` and `sklearn.LinearRegression` both compute the ordinary
least-squares line `y = m*x + c` when the predictor has nonzero variance.  They
differ on degenerate inputs:
  * `np.polyfit` raises `TypeError` on an empty vector; with every `x` equal to 0
    its internal column scaling divides by zero and poisons the solve with NaN
    (modelled `none`); with constant nonzero `x` (including a single point) it
    returns the minimum-norm solution of its column-scaled system, which is
    `(mean y / (2*x0), mean y / 2)` — a silently degenerate fit.
  * `sklearn.LinearRegression` centres the data, so a zero-variance predictor
    yields slope 0 and intercept `mean y`; it raises on empty input (`none`).
-/

/-- Sum of the first components of a list of sample pairs. -/
def sumX (pts : List (ℚ × ℚ)) : ℚ := (pts.map Prod.fst).sum

/-- Sum of the second components. -/
def sumY (pts : List (ℚ × ℚ)) : ℚ := (pts.map Prod.snd).sum

/-- Sum of squared first components. -/
def sumXX (pts : List (ℚ × ℚ)) : ℚ := (pts.map (fun p => p.1 * p.1)).sum

/-- Sum of products of the components. -/
def sumXY (pts : List (ℚ × ℚ)) : ℚ := (pts.map (fun p => p.1 * p.2)).sum

/-- Denominator `n*Σx² - (Σx)²` of the ordinary least-squares slope; zero
exactly when the predictor is degenerate (empty or constant). -/
def olsDenom (pts : List (ℚ × ℚ)) : ℚ :=
  (pts.length : ℚ) * sumXX pts - sumX pts * sumX pts

/-- Model of `np.polyfit(x, y, 1)` over the paired samples, returning
`(slope, intercept)`; see the section comment for the degenerate cases. -/
def polyfit1 (pts : List (ℚ × ℚ)) : Option (ℚ × ℚ) :=
  if pts.length = 0 then none
  else if sumXX pts = 0 then none
  else if olsDenom pts = 0 then
    some (sumY pts / (2 * (pts.length : ℚ) * (pts.headD (0, 0)).1),
          sumY pts / (2 * (pts.length : ℚ)))
  else
    let m := ((pts.length : ℚ) * sumXY pts - sumX pts * sumY pts) / olsDenom pts
    some (m, (sumY pts - m * sumX pts) / (pts.length : ℚ))

/-- Model of `sklearn.LinearRegression().fit` on one predictor, returning
`(slope, intercept)`; see the section comment for the degenerate cases. -/
def linregFit (pts : List (ℚ × ℚ)) : Option (ℚ × ℚ) :=
  if pts.length = 0 then none
  else if olsDenom pts = 0 then
    some (0, sumY pts / (pts.length : ℚ))
  else
    let m := ((pts.length : ℚ) * sumXY pts - sumX pts * sumY pts) / olsDenom pts
    some (m, (sumY pts - m * sumX pts) / (pts.length : ℚ))

/-! ### `compliance_offset` (`compliance-ok.py`, lines 83-160) -/

/-- Segment count of the coarse grid (`compliance-ok.py` lines 116-118):
`N_segments = 2 + int(np.floor((1 - span) / shift))`, decremented by 1 when
`span % shift == 0`. -/
def N_segments (span shift : ℚ) : ℤ :=
  (2 + Int.floor ((1 - span) / shift)) - (if qmod span shift = 0 then 1 else 0)

/-- Coarse segment centers (`compliance-ok.py` lines 121-125):
`X_min + Range * concat([0.5*span], 0.5*span + arange(shift, (N-1)*shift, shift),
[1 - 0.5*span])`. -/
def X_mid (Xmin Xmax span shift : ℚ) : List ℚ :=
  let Range := Xmax - Xmin
  let N := N_segments span shift
  ([span / 2] ++ (arange shift ((N - 1 : ℤ) * shift) shift).map (fun t => span / 2 + t)
    ++ [1 - span / 2]).map (fun f => Xmin + Range * f)

/-- Fine segment centers (`compliance-ok.py` line 136):
`arange(X_mid[0], X_mid[1] + Range*shift1/2, Range*shift1)`. -/
def X_mid_fine (Xmin Xmax span shift shift1 : ℚ) : List ℚ :=
  let Range := Xmax - Xmin
  let Xm := X_mid Xmin Xmax span shift
  arange (Xm.getD 0 0) (Xm.getD 1 0 + Range * shift1 / 2) (Range * shift1)

/-- Samples whose force lies within half a window width of a segment center
(`compliance-ok.py` lines 130 and 139). -/
def windowPts (X Y : List ℚ) (center width : ℚ) : List (ℚ × ℚ) :=
  (X.zip Y).filter (fun p => center - width / 2 ≤ p.1 ∧ p.1 ≤ center + width / 2)

/-- High-load reference band of the unloading arm (`compliance-ok.py` lines
99-100): samples with `X` in `[Xmin + (HL-F)*(Xmax-Xmin), Xmin + HL*(Xmax-Xmin)]`. -/
def refWindow (Xul Yul : List ℚ) (Xul_min X_max HL F : ℚ) : List (ℚ × ℚ) :=
  (Xul.zip Yul).filter (fun p =>
    Xul_min + (HL - F) * (X_max - Xul_min) ≤ p.1 ∧ p.1 ≤ Xul_min + HL * (X_max - Xul_min))

/-- Reference ("fully open") compliance `C0`: slope of the line fitted over the
high-load reference band (`compliance-ok.py` lines 101-102). -/
def refC0 (Xul Yul : List ℚ) (Xul_min X_max HL F : ℚ) : Option ℚ :=
  (polyfit1 (refWindow Xul Yul Xul_min X_max HL F)).map Prod.fst

/-- Compliance offsets of the coarse segments (`compliance-ok.py` lines 128-133):
one local fit per center, converted by `(C0 - C1[j]) * 100 / C0`. -/
def coarseOffsets (X Y : List ℚ) (Xmin Xmax span shift C0 : ℚ) : Option (List ℚ) :=
  (optMapM (fun c => (polyfit1 (windowPts X Y c ((Xmax - Xmin) * span))).map Prod.fst)
      ((X_mid Xmin Xmax span shift).take (N_segments span shift).toNat)).map
    (List.map (fun c => (C0 - c) * 100 / C0))

/-- Compliance offsets of the fine sub-grid (`compliance-ok.py` lines 136-142). -/
def fineOffsets (X Y : List ℚ) (Xmin Xmax span shift shift1 C0 : ℚ) : Option (List ℚ) :=
  (optMapM (fun c => (polyfit1 (windowPts X Y c ((Xmax - Xmin) * span))).map Prod.fst)
      (X_mid_fine Xmin Xmax span shift shift1)).map
    (List.map (fun c => (C0 - c) * 100 / C0))

/-- Per-arm body of the segment loop (`compliance-ok.py` lines 116-150): coarse
and fine offsets, extrapolation of the fine offsets to `X_min` via
`coeff = polyfit(Coffset2, X_mid_fine, 1); Coffset_Xmin = (X_min - coeff[1])/coeff[0]`,
and assembly `([X_min] ++ fine ++ X_mid[2:], [Coffset_Xmin] ++ Coffset2 ++ Coffset1[2:])`.
A degenerate extrapolation fit, or a zero extrapolation slope, divides by zero in
the float code (NaN/LinAlgError or an infinite boundary value): modelled `none`. -/
def complianceArm (X Y : List ℚ) (Xmin Xmax span shift shift1 C0 : ℚ) :
    Option (List ℚ × List ℚ) :=
  match coarseOffsets X Y Xmin Xmax span shift C0,
      fineOffsets X Y Xmin Xmax span shift shift1 C0 with
  | some off1, some off2 =>
    match polyfit1 (off2.zip (X_mid_fine Xmin Xmax span shift shift1)) with
    | some mc =>
      if mc.1 = 0 then none
      else
        some ([Xmin] ++ X_mid_fine Xmin Xmax span shift shift1
                ++ (X_mid Xmin Xmax span shift).drop 2,
              [(Xmin - mc.2) / mc.1] ++ off2 ++ off1.drop 2)
    | none => none
  | _, _ => none

/-- Truncation of the loading arrays (`compliance-ok.py` lines 109-112): when the
first loading force exceeds `X_min`, both arrays start at
`np.argmin(np.abs(X - X_min))`. -/
def trimArm (X Y : List ℚ) (Xmin : ℚ) : List ℚ × List ℚ :=
  match X with
  | [] => (X, Y)
  | x0 :: _ =>
    if Xmin < x0 then
      (X.drop (argminIdx (X.map (fun x => |x - Xmin|))),
       Y.drop (argminIdx (X.map (fun x => |x - Xmin|))))
    else (X, Y)

/-- Full `compliance_offset` (`compliance-ok.py` lines 83-160) for `opt ∈ {1, 2}`:
reference compliance from the unloading arm, loading arm (trimmed) always, the
unloading arm when `opt ≥ 2`.  The `opt = 1` NaN sentinel for the unloading
output is modelled as `none`. -/
def compliance_offset (Xl Yl Xul Yul : List ℚ) (Xl_min X_max Xul_min : ℚ)
    (span shift shift1 HL F : ℚ) (opt : ℕ) :
    Option ((List ℚ × List ℚ) × Option (List ℚ × List ℚ)) :=
  match refC0 Xul Yul Xul_min X_max HL F with
  | none => none
  | some C0 =>
    match complianceArm (trimArm Xl Yl Xl_min).1 (trimArm Xl Yl Xl_min).2
        Xl_min X_max span shift shift1 C0 with
    | none => none
    | some l =>
      if 2 ≤ opt then
        match complianceArm Xul Yul Xul_min X_max span shift shift1 C0 with
        | none => none
        | some u => some (l, some u)
      else some (l, none)

/-! ### Signal cleaning (`post-process.py`, lines 50-55)

Raw Excel columns may contain NaN (and in principle ±Inf) entries; the embedding
represents a raw float as either a finite rational or one of the non-finite
IEEE values. -/

/-- Value of one raw input cell: a finite rational, `±inf`, or `nan`. -/
inductive RVal : Type
  | fin (q : ℚ)
  | pinf
  | ninf
  | nan
deriving DecidableEq, Repr

/-- Model of `np.isnan`. -/
def RVal.isnan : RVal → Bool
  | RVal.nan => true
  | _ => false

/-- Model of `np.isinf`. -/
def RVal.isinf : RVal → Bool
  | RVal.pinf => true
  | RVal.ninf => true
  | _ => false

/-- Data cleaning (`post-process.py` lines 50-52): keep exactly the positions
where neither the force nor the displacement is NaN
(`mask = ~(np.isnan(forces) | np.isnan(displacements))`). -/
def cleanPair (x y : List RVal) : List RVal × List RVal :=
  let zs := (x.zip y).filter (fun p => !(p.1.isnan || p.2.isnan))
  (zs.map Prod.fst, zs.map Prod.snd)

/-! ### Peak detection and cycle segmentation (`post-process.py`, lines 61-176) -/

/-- Inner plateau scan of `scipy.signal._local_maxima_1d`: starting from `j`,
advance while `j < n - 1` and `x[j]` still equals the candidate peak value. -/
def aheadIdx (x : List ℚ) (xi : ℚ) : ℕ → ℕ → ℕ
  | j, 0 => j
  | j, fuel + 1 =>
    if j < x.length - 1 ∧ x.getD j 0 = xi then aheadIdx x xi (j + 1) fuel else j

/-- Outer scan of `scipy.signal._local_maxima_1d`: indices of strict local
maxima (plateau midpoints), left to right. -/
def peaksAux (x : List ℚ) : ℕ → ℕ → List ℕ
  | _, 0 => []
  | i, fuel + 1 =>
    if i < x.length - 1 then
      if x.getD (i - 1) 0 < x.getD i 0 then
        let ia := aheadIdx x (x.getD i 0) (i + 1) x.length
        if x.getD ia 0 < x.getD i 0 then
          (i + (ia - 1)) / 2 :: peaksAux x (ia + 1) fuel
        else peaksAux x (i + 1) fuel
      else peaksAux x (i + 1) fuel
    else []

/-- Model of `scipy.signal.find_peaks(x, height=h)` (`post-process.py` line 61):
local maxima whose height is at least `h`. -/
def find_peaks (x : List ℚ) (h : ℚ) : List ℕ :=
  (peaksAux x 1 x.length).filter (fun p => h ≤ x.getD p 0)

/-- First index `i` in `[s, e)` with `forces[i] ≤ fmin`, else the default `s`
(the forward scans of `post-process.py` lines 106-117, 140-143, 170-173). -/
def scanLE (forces : List ℚ) (s e : ℕ) (fmin : ℚ) : ℕ :=
  match (List.range' s (e - s)).find? (fun i => forces.getD i 0 ≤ fmin) with
  | some i => i
  | none => s

/-- Start of the loading arm of `cycle` (`post-process.py` lines 135-143): 0 for
the first cycle, otherwise the first index from the previous peak (exclusive
scan up to the current peak) where the force drops to `force_min`. -/
def load_start (forces : List ℚ) (peaks : List ℕ) (cycle : ℕ) (fmin : ℚ) : ℕ :=
  if cycle = 1 then 0
  else scanLE forces (peaks.getD (cycle - 2) 0) (peaks.getD (cycle - 1) 0) fmin

/-- Loading arm of `cycle` (`post-process.py` lines 145-149): the half-open
slice `[load_start, peaks[cycle-1])`. -/
def loadingArm (forces : List ℚ) (peaks : List ℕ) (cycle : ℕ) (fmin : ℚ) : List ℚ :=
  (forces.drop (load_start forces peaks cycle fmin)).take
    (peaks.getD (cycle - 1) 0 - load_start forces peaks cycle fmin)

/-- Start of the unloading arm (`post-process.py` lines 162-165): the peak of
the requested cycle (`peaks[0]` when `cycle = 1`, which is the same index). -/
def release_start (peaks : List ℕ) (cycle : ℕ) : ℕ :=
  if cycle = 1 then peaks.getD 0 0 else peaks.getD (cycle - 1) 0

/-- End of the unloading arm (`post-process.py` lines 167-173): the first index
at or after the peak where the force drops to `force_min`; if no such sample
exists the initial value — the peak index — survives. -/
def release_end (forces : List ℚ) (peaks : List ℕ) (cycle : ℕ) (fmin : ℚ) : ℕ :=
  scanLE forces (peaks.getD (cycle - 1) 0) forces.length fmin

/-- Unloading arm (`post-process.py` lines 175-176): the half-open slice
`[release_start, release_end)`. -/
def unloadingArm (forces : List ℚ) (peaks : List ℕ) (cycle : ℕ) (fmin : ℚ) : List ℚ :=
  (forces.drop (release_start peaks cycle)).take
    (release_end forces peaks cycle fmin - release_start peaks cycle)

/-! ### Stiffness-intersection estimator (`post-process.py`, lines 203-399) -/

/-- Model of `np.gradient` on a 1-D array with unit spacing (for arrays of
length ≥ 2, the only lengths the source feeds it): one-sided differences at the
ends, central differences inside. -/
def gradient (l : List ℚ) : List ℚ :=
  (List.range l.length).map (fun i =>
    if i = 0 then l.getD 1 0 - l.getD 0 0
    else if i = l.length - 1 then l.getD i 0 - l.getD (i - 1) 0
    else (l.getD (i + 1) 0 - l.getD (i - 1) 0) / 2)

/-- Pointwise stiffness `slopes = np.gradient(F) / np.gradient(U)`
(`post-process.py` lines 205-207).  Rational division makes a vanishing
displacement gradient yield 0 where the float code yields ±inf/NaN; theorems
about the slopes assume nonvanishing displacement gradients. -/
def slopesOf (F U : List ℚ) : List ℚ :=
  List.zipWith (fun a b => a / b) (gradient F) (gradient U)

/-- Displacement/slope pairs surviving the regime-1 upper slope bound
(`post-process.py` lines 215-217): `mask = slopes <= max_slopes1` applied to
both arrays.  The regime-2 block reuses these filtered arrays. -/
def afterMax1 (F U : List ℚ) (maxS1 : ℚ) : List (ℚ × ℚ) :=
  (U.zip (slopesOf F U)).filter (fun p => p.2 ≤ maxS1)

/-- Regime-2 point set (`post-process.py` lines 274-284): starting from the
regime-1 filtered arrays, keep `slope ≥ min_slopes2`, then
`displacement > min_disps2`, then `slope > min_slopes2`. -/
def regime2pts (F U : List ℚ) (maxS1 minS2 minD2 : ℚ) : List (ℚ × ℚ) :=
  (((afterMax1 F U maxS1).filter (fun p => minS2 ≤ p.2)).filter
      (fun p => minD2 < p.1)).filter (fun p => minS2 < p.2)

/-- Regime-2 line fit (`post-process.py` lines 296-307): ordinary least squares
of slope against displacement over the regime-2 point set (the NaN/Inf removal
of line 297 is a no-op in the exact embedding). -/
def regime2fit (F U : List ℚ) (maxS1 minS2 minD2 : ℚ) : Option (ℚ × ℚ) :=
  linregFit (regime2pts F U maxS1 minS2 minD2)

/-- Regime-2 point set as the specification words it: exactly the samples with
`slope ≥ min_slope2` and `displacement > min_disp2`, no other bound.  Stated
for comparison with `regime2pts`, which is translated from the source. -/
def regime2ptsSpec (F U : List ℚ) (minS2 minD2 : ℚ) : List (ℚ × ℚ) :=
  (U.zip (slopesOf F U)).filter (fun p => minS2 ≤ p.2 ∧ minD2 < p.1)

/-- Intersection of the two fitted regimes (`post-process.py` lines 322-328):
`x* = (b2-b1)/(m1-m2)`, `y* = m1*x* + b1` when the slopes differ, undefined
(`None` in the source) for parallel regimes. -/
def x_intersect (m1 b1 m2 b2 : ℚ) : Option (ℚ × ℚ) :=
  if m1 ≠ m2 then
    some ((b2 - b1) / (m1 - m2), m1 * ((b2 - b1) / (m1 - m2)) + b1)
  else none

/-- Load lookup at the intersection displacement (`post-process.py` lines
364-399): inside the sampled displacement range, the force of the nearest
sample; below it, the first sample's force; above it, the last sample's force —
each paired with its ratio to the arm's peak force.  `none` on empty arms (the
source prints an error and computes nothing). -/
def closureLookup (disps forces : List ℚ) (target : ℚ) : Option (ℚ × ℚ) :=
  if disps.length = 0 ∨ forces.length = 0 then none
  else
    let fmax := listMax forces
    if listMin disps ≤ target ∧ target ≤ listMax disps then
      let i := argminIdx (disps.map (fun d => |d - target|))
      some (forces.getD i 0, forces.getD i 0 / fmax)
    else if target < listMin disps then
      some (forces.getD 0 0, forces.getD 0 0 / fmax)
    else
      some (forces.getD (forces.length - 1) 0, forces.getD (forces.length - 1) 0 / fmax)

/-! ### Concrete datasets used to instantiate the theorems -/

/-- Force samples 0..4 of a small synthetic arm. -/
def Xdata : List ℚ := [0, 1, 2, 3, 4]

/-- Perfectly linear displacements `y = 2*x + 1` over `Xdata` (true compliance 2). -/
def Ylin : List ℚ := [1, 3, 5, 7, 9]

/-- Quadratic displacements `y = x^2` over `Xdata` (genuinely varying compliance). -/
def Ysq : List ℚ := [0, 1, 4, 9, 16]

/-- Forces of an arm with a sampling gap: the segment window `[2, 4]` of the
`span = 1/2` grid on `[0, 4]` contains exactly one sample. -/
def Xgap : List ℚ := [0, 1/2, 1, 3/2, 4]

/-- Displacements `y = x^2` over `Xgap`. -/
def Ygap : List ℚ := [0, 1/4, 1, 9/4, 16]

/-- One triangle of the synthetic force series of §8: up 0..100, down 90..0. -/
def triOnce : List ℚ :=
  [0, 10, 20, 30, 40, 50, 60, 70, 80, 90, 100,
   90, 80, 70, 60, 50, 40, 30, 20, 10, 0]

/-- The triangular force series `[0,10,...,100,90,...,0]` repeated 3 times. -/
def triSeries : List ℚ := triOnce ++ triOnce ++ triOnce

/-- Samples of the synthetic regime-1 line `y = 2x + 1` on `x ∈ {0,...,5}`. -/
def regime1Samples : List (ℚ × ℚ) :=
  [(0, 1), (1, 3), (2, 5), (3, 7), (4, 9), (5, 11)]

/-- Samples of the synthetic regime-2 line `y = -x + 20` on `x ∈ {5,...,10}`. -/
def regime2Samples : List (ℚ × ℚ) :=
  [(5, 15), (6, 14), (7, 13), (8, 12), (9, 11), (10, 10)]

/-- Forces of a four-sample arm whose middle stiffness values exceed a regime-1
upper bound of 10. -/
def F4 : List ℚ := [0, 1, 30, 31]

/-- Displacements of the four-sample arm. -/
def U4 : List ℚ := [0, 1, 2, 3]

/-! ### Helper lemmas -/

theorem optMapM_length {α β : Type} (f : α → Option β) :
    ∀ (l : List α) (r : List β), optMapM f l = some r → r.length = l.length := by
  intro l
  induction l with
  | nil => intro r hr; simp [optMapM] at hr; simp [hr.symm]
  | cons a t ih =>
    intro r hr
    unfold optMapM at hr
    cases hfa : f a with
    | none => rw [hfa] at hr; exact absurd hr (by simp)
    | some b =>
      cases ht : optMapM f t with
      | none => rw [hfa, ht] at hr; exact absurd hr (by simp)
      | some bs =>
        rw [hfa, ht] at hr
        simp only [Option.some_inj] at hr
        rw [hr.symm]
        simp [ih bs ht]

theorem optMapM_map_some {α β : Type} (f : α → Option β) (g : α → β) :
    ∀ (l : List α), (∀ a ∈ l, f a = some (g a)) → optMapM f l = some (l.map g) := by
  intro l
  induction l with
  | nil => intro _; rfl
  | cons a t ih =>
    intro h
    unfold optMapM
    rw [h a (List.mem_cons_self a t), ih (fun b hb => h b (List.mem_cons_of_mem a hb))]
    rfl

theorem optMapM_eq_none {α β : Type} (f : α → Option β) (a : α) :
    ∀ (l : List α), a ∈ l → f a = none → optMapM f l = none := by
  intro l
  induction l with
  | nil => intro h; exact absurd h (List.not_mem_nil a)
  | cons b t ih =>
    intro hmem hfa
    unfold optMapM
    rcases List.mem_cons.mp hmem with h | h
    · rw [← h, hfa]
    · rw [ih h hfa]
      cases f b <;> rfl

theorem sumX_cons (p : ℚ × ℚ) (l : List (ℚ × ℚ)) : sumX (p :: l) = p.1 + sumX l := by
  simp [sumX]

theorem sumY_cons (p : ℚ × ℚ) (l : List (ℚ × ℚ)) : sumY (p :: l) = p.2 + sumY l := by
  simp [sumY]

theorem sumXX_cons (p : ℚ × ℚ) (l : List (ℚ × ℚ)) :
    sumXX (p :: l) = p.1 * p.1 + sumXX l := by
  simp [sumXX]

theorem sumXY_cons (p : ℚ × ℚ) (l : List (ℚ × ℚ)) :
    sumXY (p :: l) = p.1 * p.2 + sumXY l := by
  simp [sumXY]

theorem sumXX_nonneg : ∀ pts : List (ℚ × ℚ), 0 ≤ sumXX pts := by
  intro pts
  induction pts with
  | nil => simp [sumXX]
  | cons p l ih => rw [sumXX_cons]; exact add_nonneg (mul_self_nonneg p.1) ih

theorem sumXX_eq_zero_all {pts : List (ℚ × ℚ)} (h : sumXX pts = 0) :
    ∀ p ∈ pts, p.1 = 0 := by
  induction pts with
  | nil => intro p hp; exact absurd hp (List.not_mem_nil p)
  | cons q l ih =>
    rw [sumXX_cons] at h
    have hq : q.1 * q.1 = 0 := by
      have h1 := mul_self_nonneg q.1
      have h2 := sumXX_nonneg l
      linarith
    intro p hp
    rcases List.mem_cons.mp hp with hh | hh
    · rw [hh]; exact mul_self_eq_zero.mp hq
    · exact ih (by linarith [mul_self_nonneg q.1, sumXX_nonneg l]) p hh

theorem sumX_zero {pts : List (ℚ × ℚ)} (h : ∀ p ∈ pts, p.1 = 0) : sumX pts = 0 := by
  induction pts with
  | nil => rfl
  | cons q l ih =>
    rw [sumX_cons, h q (List.mem_cons_self q l), ih (fun p hp => h p (List.mem_cons_of_mem q hp))]
    ring

theorem sumY_linear {C b : ℚ} : ∀ {pts : List (ℚ × ℚ)},
    (∀ p ∈ pts, p.2 = C * p.1 + b) → sumY pts = C * sumX pts + pts.length * b := by
  intro pts
  induction pts with
  | nil => intro _; simp [sumY, sumX]
  | cons q l ih =>
    intro h
    rw [sumY_cons, sumX_cons, h q (List.mem_cons_self q l),
      ih (fun p hp => h p (List.mem_cons_of_mem q hp)), List.length_cons]
    push_cast
    ring

theorem sumXY_linear {C b : ℚ} : ∀ {pts : List (ℚ × ℚ)},
    (∀ p ∈ pts, p.2 = C * p.1 + b) → sumXY pts = C * sumXX pts + b * sumX pts := by
  intro pts
  induction pts with
  | nil => intro _; simp [sumXY, sumXX, sumX]
  | cons q l ih =>
    intro h
    rw [sumXY_cons, sumXX_cons, sumX_cons, h q (List.mem_cons_self q l),
      ih (fun p hp => h p (List.mem_cons_of_mem q hp))]
    ring

/-- Ordinary least squares is exact on exactly linear data: whenever the
predictor is nondegenerate, `np.polyfit` recovers the true slope and intercept. -/
theorem polyfit1_linear {C b : ℚ} {pts : List (ℚ × ℚ)}
    (hlin : ∀ p ∈ pts, p.2 = C * p.1 + b) (hd : olsDenom pts ≠ 0) :
    polyfit1 pts = some (C, b) := by
  have hne : pts.length ≠ 0 := by
    intro h0
    apply hd
    rw [List.length_eq_zero.mp h0]
    simp [olsDenom, sumXX, sumX]
  have hxx : sumXX pts ≠ 0 := by
    intro h0
    apply hd
    unfold olsDenom
    rw [h0, sumX_zero (sumXX_eq_zero_all h0)]
    ring
  have hnq : (pts.length : ℚ) ≠ 0 := Nat.cast_ne_zero.mpr hne
  have hsy := sumY_linear hlin
  have hsxy := sumXY_linear hlin
  have hm : ((pts.length : ℚ) * sumXY pts - sumX pts * sumY pts) / olsDenom pts = C := by
    rw [hsy, hsxy]
    have hnum : ((pts.length : ℚ) * (C * sumXX pts + b * sumX pts) -
        sumX pts * (C * sumX pts + (pts.length : ℚ) * b)) = C * olsDenom pts := by
      unfold olsDenom; ring
    rw [hnum, mul_div_assoc, div_self hd, mul_one]
  unfold polyfit1
  rw [if_neg hne, if_neg hxx, if_neg hd]
  show some (((pts.length : ℚ) * sumXY pts - sumX pts * sumY pts) / olsDenom pts,
      (sumY pts - ((pts.length : ℚ) * sumXY pts - sumX pts * sumY pts) / olsDenom pts *
        sumX pts) / (pts.length : ℚ)) = some (C, b)
  rw [hm, hsy]
  have hb : (C * sumX pts + (pts.length : ℚ) * b - C * sumX pts) / (pts.length : ℚ) = b := by
    field_simp
  rw [hb]

/-- A zero sum of squared predictors (empty input, or every x equal to zero)
makes `np.polyfit` fail: `TypeError` on empty input, NaN poisoning of the
column-scaled solve otherwise. -/
theorem polyfit1_none {pts : List (ℚ × ℚ)} (h : sumXX pts = 0) : polyfit1 pts = none := by
  unfold polyfit1
  by_cases hne : pts.length = 0
  · rw [if_pos hne]
  · rw [if_neg hne, if_pos h]

theorem arangeLen_grid (shift : ℚ) (N : ℤ) (hsh : 0 < shift) :
    arangeLen shift (((N - 1 : ℤ) : ℚ) * shift) shift = (N - 2).toNat := by
  unfold arangeLen
  by_cases hN : 3 ≤ N
  · have hN3 : (3 : ℚ) ≤ (N : ℚ) := by exact_mod_cast hN
    have hlt : shift < ((N - 1 : ℤ) : ℚ) * shift := by
      push_cast
      nlinarith
    rw [if_pos ⟨hsh, hlt⟩]
    have hq : (((N - 1 : ℤ) : ℚ) * shift - shift) / shift = ((N - 2 : ℤ) : ℚ) := by
      push_cast
      field_simp
      ring
    rw [hq, Int.ceil_intCast]
  · have hNle : (N : ℚ) ≤ 2 := by exact_mod_cast (by omega : N ≤ 2)
    have hge : ((N - 1 : ℤ) : ℚ) * shift ≤ shift := by
      push_cast
      nlinarith
    rw [if_neg (by rintro ⟨-, hlt⟩; exact absurd hlt (not_lt.mpr hge)),
      Int.toNat_of_nonpos (by omega)]

theorem arange_length (lo hi step : ℚ) : (arange lo hi step).length = arangeLen lo hi step := by
  unfold arange
  rw [List.length_map, List.length_range]

theorem X_mid_length (Xmin Xmax span shift : ℚ) (hsh : 0 < shift) :
    (X_mid Xmin Xmax span shift).length = 2 + (N_segments span shift - 2).toNat := by
  unfold X_mid
  rw [List.length_map, List.length_append, List.length_append, List.length_map,
    arange_length, arangeLen_grid shift (N_segments span shift) hsh]
  simp only [List.length_cons, List.length_nil]
  omega

theorem N_segments_pos (span shift : ℚ) (h1 : 0 < span) (h2 : span ≤ 1) (h3 : 0 < shift) :
    1 ≤ N_segments span shift := by
  unfold N_segments
  have h0 : 0 ≤ Int.floor ((1 - span) / shift) :=
    Int.floor_nonneg.mpr (div_nonneg (by linarith) h3.le)
  split <;> omega

theorem argminPair_eq_nil : ∀ {l : List ℚ}, argminPair l = none → l = [] := by
  intro l h
  cases l with
  | nil => rfl
  | cons x xs =>
    unfold argminPair at h
    cases hxs : argminPair xs with
    | none =>
      simp only [hxs] at h
      exact absurd h (by simp)
    | some jv =>
      simp only [hxs] at h
      by_cases hle : x ≤ jv.2
      · rw [if_pos hle] at h; exact absurd h (by simp)
      · rw [if_neg hle] at h; exact absurd h (by simp)

theorem argminPair_spec : ∀ (l : List ℚ) (jv : ℕ × ℚ), argminPair l = some jv →
    jv.1 < l.length ∧ l.getD jv.1 0 = jv.2 ∧ ∀ k < l.length, jv.2 ≤ l.getD k 0 := by
  intro l
  induction l with
  | nil => intro jv h; exact absurd h (by simp [argminPair])
  | cons x xs ih =>
    intro jv h
    unfold argminPair at h
    cases hxs : argminPair xs with
    | none =>
      simp only [hxs] at h
      have hnil := argminPair_eq_nil hxs
      subst hnil
      simp only [Option.some_inj] at h
      subst h
      refine ⟨Nat.succ_pos 0, rfl, ?_⟩
      intro k hk
      have hk0 : k = 0 := Nat.lt_one_iff.mp (by simpa using hk)
      rw [hk0]
      exact le_refl x
    | some jv0 =>
      simp only [hxs] at h
      obtain ⟨hj0, hv0, hmin0⟩ := ih jv0 hxs
      by_cases hle : x ≤ jv0.2
      · rw [if_pos hle] at h
        simp only [Option.some_inj] at h
        subst h
        refine ⟨Nat.succ_pos _, rfl, ?_⟩
        intro k hk
        cases k with
        | zero => exact le_refl x
        | succ k0 =>
          rw [List.getD_cons_succ]
          exact le_trans hle (hmin0 k0 (by simpa using hk))
      · rw [if_neg hle] at h
        simp only [Option.some_inj] at h
        subst h
        refine ⟨by simpa using Nat.succ_lt_succ hj0,
          by rw [List.getD_cons_succ]; exact hv0, ?_⟩
        intro k hk
        cases k with
        | zero => exact le_of_lt (lt_of_not_le hle)
        | succ k0 =>
          rw [List.getD_cons_succ]
          exact hmin0 k0 (by simpa using hk)

theorem argminIdx_spec (l : List ℚ) (hne : l ≠ []) :
    argminIdx l < l.length ∧ ∀ k < l.length, l.getD (argminIdx l) 0 ≤ l.getD k 0 := by
  unfold argminIdx
  cases hl : argminPair l with
  | none => exact absurd (argminPair_eq_nil hl) hne
  | some jv =>
    obtain ⟨hj, hv, hmin⟩ := argminPair_spec l jv hl
    exact ⟨hj, fun k hk => by rw [hv]; exact hmin k hk⟩

theorem scanLE_eq_start {forces : List ℚ} {s e : ℕ} {fmin : ℚ}
    (h : ∀ i ∈ List.range' s (e - s), ¬(forces.getD i 0 ≤ fmin)) :
    scanLE forces s e fmin = s := by
  unfold scanLE
  rw [List.find?_eq_none.mpr (fun i hi => by simpa using h i hi)]

theorem clean_zip_eq_range (keepf : RVal × RVal → Bool) :
    ∀ (x y : List RVal),
      ((x.zip y).filter keepf).map Prod.fst =
        ((List.range (min x.length y.length)).filter
          (fun i => keepf (x.getD i RVal.nan, y.getD i RVal.nan))).map
          (fun i => x.getD i RVal.nan) ∧
      ((x.zip y).filter keepf).map Prod.snd =
        ((List.range (min x.length y.length)).filter
          (fun i => keepf (x.getD i RVal.nan, y.getD i RVal.nan))).map
          (fun i => y.getD i RVal.nan) := by
  intro x
  induction x with
  | nil => intro y; simp
  | cons a xs ih =>
    intro y
    cases y with
    | nil => simp
    | cons b ys =>
      have h1 := (ih ys).1
      have h2 := (ih ys).2
      by_cases hk : keepf (a, b) = true <;>
        simp [List.filter_cons, Nat.succ_min_succ, List.range_succ_eq_map, List.filter_map,
          List.map_map, Function.comp_def, Nat.succ_eq_add_one, hk, h1, h2]

theorem release_start_eq (peaks : List ℕ) (cycle : ℕ) :
    release_start peaks cycle = peaks.getD (cycle - 1) 0 := by
  unfold release_start
  split
  · rename_i h; rw [h]
  · rfl

theorem coarseOffsets_length {X Y : List ℚ} {Xmin Xmax span shift C0 : ℚ} {off1 : List ℚ}
    (h : coarseOffsets X Y Xmin Xmax span shift C0 = some off1) :
    off1.length =
      min (N_segments span shift).toNat (X_mid Xmin Xmax span shift).length := by
  unfold coarseOffsets at h
  rw [Option.map_eq_some'] at h
  obtain ⟨l0, hl0, hoff⟩ := h
  rw [← hoff, List.length_map, optMapM_length _ _ l0 hl0, List.length_take]

theorem fineOffsets_length {X Y : List ℚ} {Xmin Xmax span shift shift1 C0 : ℚ} {off2 : List ℚ}
    (h : fineOffsets X Y Xmin Xmax span shift shift1 C0 = some off2) :
    off2.length = (X_mid_fine Xmin Xmax span shift shift1).length := by
  unfold fineOffsets at h
  rw [Option.map_eq_some'] at h
  obtain ⟨l0, hl0, hoff⟩ := h
  rw [← hoff, List.length_map, optMapM_length _ _ l0 hl0]

theorem complianceArm_lengths {X Y : List ℚ} {Xmin Xmax span shift shift1 C0 : ℚ}
    (hspan : 0 < span) (hspan1 : span ≤ 1) (hsh : 0 < shift)
    (p : List ℚ × List ℚ)
    (hp : complianceArm X Y Xmin Xmax span shift shift1 C0 = some p) :
    p.1.length = 1 + (X_mid_fine Xmin Xmax span shift shift1).length +
      (N_segments span shift - 2).toNat ∧
    p.2.length = 1 + (X_mid_fine Xmin Xmax span shift shift1).length +
      (N_segments span shift - 2).toNat := by
  have hN := N_segments_pos span shift hspan hspan1 hsh
  have hXm := X_mid_length Xmin Xmax span shift hsh
  unfold complianceArm at hp
  cases hco : coarseOffsets X Y Xmin Xmax span shift C0 with
  | none => simp only [hco] at hp; exact Option.noConfusion hp
  | some off1 =>
    simp only [hco] at hp
    cases hfo : fineOffsets X Y Xmin Xmax span shift shift1 C0 with
    | none => simp only [hfo] at hp; exact Option.noConfusion hp
    | some off2 =>
      simp only [hfo] at hp
      cases hpf : polyfit1 (off2.zip (X_mid_fine Xmin Xmax span shift shift1)) with
      | none => simp only [hpf] at hp; exact Option.noConfusion hp
      | some mc =>
        simp only [hpf] at hp
        by_cases hz : mc.1 = 0
        · rw [if_pos hz] at hp; exact Option.noConfusion hp
        · rw [if_neg hz] at hp
          simp only [Option.some_inj] at hp
          subst hp
          have h1 := coarseOffsets_length hco
          have h2 := fineOffsets_length hfo
          constructor
          · simp only [List.length_append, List.length_cons, List.length_nil,
              List.length_drop, hXm]
            omega
          · simp only [List.length_append, List.length_cons, List.length_nil,
              List.length_drop, h1, h2, hXm]
            rw [Nat.min_def]
            split <;> omega

/-! ### Claim theorems -/

/-- C3: for any two fitted linear regimes, if `m1 ≠ m2` the transition point is
`x* = (b2-b1)/(m1-m2)` with `y* = m1*x* + b1`; if `m1 = m2` the intersection is
undefined and no value is guessed.  For the synthetic regimes `y = 2x+1` on
`x ∈ [0,5]` and `y = -x+20` on `x ∈ [5,10]`, fit independently over disjoint
windows, the recovered intersection abscissa is exactly `19/3`. -/
theorem regime_intersection_formula :
    (∀ m1 b1 m2 b2 : ℚ,
        (m1 ≠ m2 → x_intersect m1 b1 m2 b2 =
          some ((b2 - b1) / (m1 - m2), m1 * ((b2 - b1) / (m1 - m2)) + b1)) ∧
        (m1 = m2 → x_intersect m1 b1 m2 b2 = none)) ∧
    linregFit regime1Samples = some (2, 1) ∧
    linregFit regime2Samples = some (-1, 20) ∧
    x_intersect 2 1 (-1) 20 = some (19 / 3, 41 / 3) := by
  refine ⟨?_, by decide, by decide, by decide⟩
  intro m1 b1 m2 b2
  constructor
  · intro h
    unfold x_intersect
    rw [if_pos h]
  · intro h
    unfold x_intersect
    rw [if_neg (by simp [h])]

/-- Witness for C3: concrete intersection of the regimes `y = 2x+4` vs `y = 3x+1`
and a parallel pair, via `regime_intersection_formula`. -/
theorem regime_intersection_formula_witness :
    x_intersect 2 1 3 4 = some ((4 - 1) / (2 - 3), 2 * ((4 - 1) / (2 - 3)) + 1) ∧
    x_intersect 1 1 1 2 = none :=
  ⟨(regime_intersection_formula.1 2 1 3 4).1 (by norm_num),
   (regime_intersection_formula.1 1 1 1 2).2 rfl⟩

/-- C4 (amended): the regime-2 point set is the samples with
`min_slope2 < slope ≤ max_slopes1` and `displacement > min_disp2` — the regime-1
upper slope bound carries over because the source reuses the already-filtered
`slopes_clean` arrays, and the final strict mask makes the lower bound strict —
and the regime-2 line is the least-squares fit over exactly that set. -/
theorem regime2_window_characterization (F U : List ℚ) (maxS1 minS2 minD2 : ℚ) :
    regime2pts F U maxS1 minS2 minD2 =
      (U.zip (slopesOf F U)).filter
        (fun p => minS2 < p.2 ∧ p.2 ≤ maxS1 ∧ minD2 < p.1) ∧
    regime2fit F U maxS1 minS2 minD2 =
      linregFit ((U.zip (slopesOf F U)).filter
        (fun p => minS2 < p.2 ∧ p.2 ≤ maxS1 ∧ minD2 < p.1)) := by
  have hset : regime2pts F U maxS1 minS2 minD2 =
      (U.zip (slopesOf F U)).filter
        (fun p => minS2 < p.2 ∧ p.2 ≤ maxS1 ∧ minD2 < p.1) := by
    unfold regime2pts afterMax1
    rw [List.filter_filter, List.filter_filter, List.filter_filter]
    apply List.filter_congr
    intro p _
    by_cases h1 : minS2 < p.2
    · by_cases h2 : p.2 ≤ maxS1 <;> by_cases h3 : minD2 < p.1 <;>
        simp [h1, h1.le, h2, h3]
    · by_cases h2 : p.2 ≤ maxS1 <;> by_cases h3 : minD2 < p.1 <;>
        simp [h1, h2, h3]
  refine ⟨hset, ?_⟩
  unfold regime2fit
  rw [hset]

/-- Counterexample for C4: on a concrete arm, the code's regime-2 set drops the
samples whose stiffness exceeds the regime-1 upper bound `max_slopes1 = 10`
(carried over through the reused filtered arrays), while the set described by
the claim — slope ≥ `min_slope2` and displacement > `min_disp2` with no upper
bound — keeps them, and the two least-squares fits differ. -/
theorem regime2_window_carryover_cex :
    regime2pts F4 U4 10 0 (1 / 2) = [(3, 1)] ∧
    regime2ptsSpec F4 U4 0 (1 / 2) = [(1, 15), (2, 15), (3, 1)] ∧
    regime2pts F4 U4 10 0 (1 / 2) ≠ regime2ptsSpec F4 U4 0 (1 / 2) ∧
    regime2fit F4 U4 10 0 (1 / 2) ≠ linregFit (regime2ptsSpec F4 U4 0 (1 / 2)) := by
  decide

/-- C5 (amended): on the triangular force series repeated three times, peak
detection with the `0.8 × max` height threshold finds exactly the three indices
of the value-100 samples, and the cycle-2 loading arm is the slice
`[20, 31)`: the final descent sample of the first triangle followed by the
ascending run of the second triangle without its peak sample. -/
theorem triangular_peaks_and_arm :
    find_peaks triSeries (listMax triSeries * (4 / 5)) = [10, 31, 52] ∧
    (∀ i < triSeries.length, triSeries.getD i 0 = 100 ↔ (i = 10 ∨ i = 31 ∨ i = 52)) ∧
    loadingArm triSeries (find_peaks triSeries (listMax triSeries * (4 / 5))) 2 5 =
      [0, 0, 10, 20, 30, 40, 50, 60, 70, 80, 90] := by
  decide

/-- Counterexample for C5: the known ascending sub-sequence of the second
triangle (indices 21-31) is `[0,10,...,100]`, but the loading arm returned for
cycle 2 is not equal to it — the half-open slice excludes the peak sample and
includes the previous triangle's final 0. -/
theorem triangular_loading_arm_cex :
    (triSeries.drop 21).take 11 = [0, 10, 20, 30, 40, 50, 60, 70, 80, 90, 100] ∧
    loadingArm triSeries (find_peaks triSeries (listMax triSeries * (4 / 5))) 2 5 ≠
      [0, 10, 20, 30, 40, 50, 60, 70, 80, 90, 100] := by
  decide

/-- C6: whenever the intersection displacement falls strictly below the arm's
minimum sampled displacement, the load lookup reports exactly the first
sample's force, and the ratio is that force divided by the arm's maximum
force. -/
theorem boundary_clamp_below_min (disps forces : List ℚ) (target : ℚ)
    (hd : disps ≠ []) (hf : forces ≠ []) (ht : target < listMin disps) :
    closureLookup disps forces target =
      some (forces.getD 0 0, forces.getD 0 0 / listMax forces) := by
  have hL : ¬(disps.length = 0 ∨ forces.length = 0) := by
    simp [List.length_eq_zero, hd, hf]
  have hmid : ¬(listMin disps ≤ target ∧ target ≤ listMax disps) := by
    rintro ⟨h1, -⟩
    linarith
  unfold closureLookup
  rw [if_neg hL, if_neg hmid, if_pos ht]

/-- Witness for C6: a concrete unloading arm clamped below its minimum
displacement. -/
theorem boundary_clamp_below_min_witness :
    closureLookup [3, 2, 1] [9, 6, 3] (1 / 2) = some (9, 1) := by
  rw [boundary_clamp_below_min [3, 2, 1] [9, 6, 3] (1 / 2) (by decide) (by decide) (by decide)]
  decide

/-- C7 (amended): for equal-length raw inputs, the cleaned arrays keep exactly
the positions where neither entry is NaN, in original order; the outputs have
equal lengths and contain no NaN.  Infinite entries are NOT removed (the mask
tests only `np.isnan`). -/
theorem clean_removes_only_nan (x y : List RVal) (hlen : x.length = y.length) :
    (cleanPair x y).1.length = (cleanPair x y).2.length ∧
    (∀ v ∈ (cleanPair x y).1, v.isnan = false) ∧
    (∀ v ∈ (cleanPair x y).2, v.isnan = false) ∧
    (cleanPair x y).1 = ((List.range x.length).filter
        (fun i => !((x.getD i RVal.nan).isnan || (y.getD i RVal.nan).isnan))).map
      (fun i => x.getD i RVal.nan) ∧
    (cleanPair x y).2 = ((List.range x.length).filter
        (fun i => !((x.getD i RVal.nan).isnan || (y.getD i RVal.nan).isnan))).map
      (fun i => y.getD i RVal.nan) := by
  have hmin : min x.length y.length = x.length := by omega
  have hz := clean_zip_eq_range (fun p => !(p.1.isnan || p.2.isnan)) x y
  refine ⟨by simp [cleanPair], ?_, ?_, ?_, ?_⟩
  · intro v hv
    simp only [cleanPair, List.mem_map] at hv
    obtain ⟨p, hp, hpv⟩ := hv
    rw [List.mem_filter] at hp
    have hkeep := hp.2
    rw [← hpv]
    simp only [Bool.not_eq_eq_eq_not, Bool.not_true, Bool.or_eq_false_iff] at hkeep
    exact hkeep.1
  · intro v hv
    simp only [cleanPair, List.mem_map] at hv
    obtain ⟨p, hp, hpv⟩ := hv
    rw [List.mem_filter] at hp
    have hkeep := hp.2
    rw [← hpv]
    simp only [Bool.not_eq_eq_eq_not, Bool.not_true, Bool.or_eq_false_iff] at hkeep
    exact hkeep.2
  · have h1 := hz.1
    rw [hmin] at h1
    exact h1
  · have h2 := hz.2
    rw [hmin] at h2
    exact h2

/-- Witness for C7: the cleaned arrays of a concrete equal-length input have
equal lengths, via `clean_removes_only_nan`. -/
theorem clean_removes_only_nan_witness :
    (cleanPair [RVal.fin 1, RVal.nan] [RVal.fin 2, RVal.fin 3]).1.length =
      (cleanPair [RVal.fin 1, RVal.nan] [RVal.fin 2, RVal.fin 3]).2.length :=
  (clean_removes_only_nan [RVal.fin 1, RVal.nan] [RVal.fin 2, RVal.fin 3] rfl).1

/-- Counterexample for C7: cleaning an equal-length input containing `+inf`
retains the infinite value — the claim's "no Inf values remain" is false (only
NaN is masked out). -/
theorem clean_inf_retained_cex :
    ([RVal.fin 1, RVal.pinf] : List RVal).length = [RVal.fin 2, RVal.fin 3].length ∧
    (cleanPair [RVal.fin 1, RVal.pinf] [RVal.fin 2, RVal.fin 3]).1 =
      [RVal.fin 1, RVal.pinf] ∧
    ((cleanPair [RVal.fin 1, RVal.pinf] [RVal.fin 2, RVal.fin 3]).1.any RVal.isinf) = true := by
  decide

/-- C10: if no sample at or after the selected peak drops to `force_min`, the
unloading-arm end index stays equal to the peak index and the returned
unloading arm is the empty slice; no error is raised. -/
theorem empty_unloading_arm (forces : List ℚ) (peaks : List ℕ) (cycle : ℕ) (fmin : ℚ)
    (h : ∀ i < forces.length, peaks.getD (cycle - 1) 0 ≤ i → fmin < forces.getD i 0) :
    release_end forces peaks cycle fmin = peaks.getD (cycle - 1) 0 ∧
    unloadingArm forces peaks cycle fmin = [] := by
  have hre : release_end forces peaks cycle fmin = peaks.getD (cycle - 1) 0 := by
    unfold release_end
    apply scanLE_eq_start
    intro i hi
    rw [List.mem_range'] at hi
    obtain ⟨k, hk, rfl⟩ := hi
    have hilen : peaks.getD (cycle - 1) 0 + 1 * k < forces.length := by omega
    have hige : peaks.getD (cycle - 1) 0 ≤ peaks.getD (cycle - 1) 0 + 1 * k := by omega
    exact not_le.mpr (h _ hilen hige)
  refine ⟨hre, ?_⟩
  unfold unloadingArm
  rw [hre, release_start_eq]
  simp

/-- Witness for C10: a concrete series whose force never returns to `force_min`
after the peak yields the empty unloading arm. -/
theorem empty_unloading_arm_witness :
    release_end [1, 5, 3] [1] 1 0 = 1 ∧ unloadingArm [1, 5, 3] [1] 1 0 = [] := by
  have h := empty_unloading_arm [1, 5, 3] [1] 1 0 (by decide)
  exact ⟨by rw [h.1]; decide, h.2⟩

/-- C1: for valid parameters (positive fractional span and positive steps) and
every input arm, the position array and offset curve returned by
`compliance_offset` each have length
`1 + len(X_mid_fine) + max(0, N_segments - 2)`, with
`N_segments = 2 + floor((1-span)/shift)`, decremented by 1 when `span` is an
exact multiple of `shift` (`span % shift == 0`). -/
theorem compliance_offset_curve_lengths
    (Xl Yl Xul Yul : List ℚ) (Xl_min X_max Xul_min span shift shift1 HL F : ℚ) (opt : ℕ)
    (r : (List ℚ × List ℚ) × Option (List ℚ × List ℚ))
    (hspan : 0 < span) (hspan1 : span ≤ 1) (hsh : 0 < shift)
    (hr : compliance_offset Xl Yl Xul Yul Xl_min X_max Xul_min span shift shift1 HL F opt =
      some r) :
    (r.1.1.length = 1 + (X_mid_fine Xl_min X_max span shift shift1).length +
        (N_segments span shift - 2).toNat ∧
     r.1.2.length = 1 + (X_mid_fine Xl_min X_max span shift shift1).length +
        (N_segments span shift - 2).toNat) ∧
    (∀ u, r.2 = some u →
      u.1.length = 1 + (X_mid_fine Xul_min X_max span shift shift1).length +
        (N_segments span shift - 2).toNat ∧
      u.2.length = 1 + (X_mid_fine Xul_min X_max span shift shift1).length +
        (N_segments span shift - 2).toNat) := by
  unfold compliance_offset at hr
  cases hc0 : refC0 Xul Yul Xul_min X_max HL F with
  | none => simp only [hc0] at hr; exact Option.noConfusion hr
  | some C0 =>
    simp only [hc0] at hr
    cases hl : complianceArm (trimArm Xl Yl Xl_min).1 (trimArm Xl Yl Xl_min).2
        Xl_min X_max span shift shift1 C0 with
    | none => simp only [hl] at hr; exact Option.noConfusion hr
    | some l =>
      simp only [hl] at hr
      have hlen := complianceArm_lengths hspan hspan1 hsh l hl
      by_cases hopt : 2 ≤ opt
      · rw [if_pos hopt] at hr
        cases hu : complianceArm Xul Yul Xul_min X_max span shift shift1 C0 with
        | none => simp only [hu] at hr; exact Option.noConfusion hr
        | some u =>
          simp only [hu] at hr
          have hulen := complianceArm_lengths hspan hspan1 hsh u hu
          simp only [Option.some_inj] at hr
          subst hr
          refine ⟨⟨hlen.1, hlen.2⟩, ?_⟩
          intro u0 hu0
          have hequ : u = u0 := Option.some_inj.mp hu0
          rw [← hequ]
          exact ⟨hulen.1, hulen.2⟩
      · rw [if_neg hopt] at hr
        simp only [Option.some_inj] at hr
        subst hr
        refine ⟨⟨hlen.1, hlen.2⟩, ?_⟩
        intro u0 hu0
        exact Option.noConfusion hu0

/-- Witness for C1: a concrete run over the quadratic arm dataset, both arms
requested; both returned curves have the predicted length. -/
theorem compliance_offset_curve_lengths_witness :
    (compliance_offset Xdata Ysq Xdata Ysq 0 4 0 (1/2) (1/2) (1/4) 1 (1/4) 2).map
      (fun r => (r.1.1.length, r.1.2.length,
        r.2.map (fun u => (u.1.length, u.2.length)))) =
    some (1 + (X_mid_fine 0 4 (1/2) (1/2) (1/4)).length + (N_segments (1/2) (1/2) - 2).toNat,
          1 + (X_mid_fine 0 4 (1/2) (1/2) (1/4)).length + (N_segments (1/2) (1/2) - 2).toNat,
          some (1 + (X_mid_fine 0 4 (1/2) (1/2) (1/4)).length +
              (N_segments (1/2) (1/2) - 2).toNat,
            1 + (X_mid_fine 0 4 (1/2) (1/2) (1/4)).length +
              (N_segments (1/2) (1/2) - 2).toNat)) := by
  have h := compliance_offset_curve_lengths Xdata Ysq Xdata Ysq 0 4 0 (1/2) (1/2) (1/4)
    1 (1/4) 2
    ((([0, 1, 2, 3] : List ℚ), ([100, 500/7, 300/7, 100/7] : List ℚ)),
      some (([0, 1, 2, 3] : List ℚ), ([100, 500/7, 300/7, 100/7] : List ℚ)))
    (by norm_num) (by norm_num) (by norm_num) (by decide)
  rw [← h.1.1]
  decide

/-- C2 counterexample: on a perfectly linear curve (`displacement =
2*force + 1` exactly), the reference compliance is recovered exactly and every
coarse and fine offset is exactly 0, but then the boundary extrapolation fit
`polyfit(Coffset2, X_mid_fine, 1)` has an all-zero predictor, so
`Coffset_Xmin` is not a finite number (division by zero / NaN in the float
code): `compliance_offset` produces no curve at all, and in particular no value
equal to 0 within tolerance at the boundary. -/
theorem linear_roundtrip_Xmin_undefined :
    (∀ p ∈ Xdata.zip Ylin, p.2 = 2 * p.1 + 1) ∧
    refC0 Xdata Ylin 0 4 1 (1/4) = some 2 ∧
    coarseOffsets Xdata Ylin 0 4 (1/2) (1/2) 2 = some [0, 0] ∧
    fineOffsets Xdata Ylin 0 4 (1/2) (1/2) (1/4) 2 = some [0, 0, 0] ∧
    compliance_offset Xdata Ylin Xdata Ylin 0 4 0 (1/2) (1/2) (1/4) 1 (1/4) 2 = none := by
  decide

/-- C2 (amended): on exactly linear data `y = C*x + b` with `C ≠ 0`, whenever
the reference window and every segment window have nondegenerate predictors,
the recovered reference compliance equals `C` exactly and every coarse and fine
offset equals 0 exactly; the boundary extrapolation then degenerates (all fine
offsets are identical), so `Coffset_Xmin` is undefined and the per-arm
computation fails instead of returning a curve. -/
theorem linear_roundtrip_offsets_zero
    (X Y Xul Yul : List ℚ) (Xmin Xul_min Xmax span shift shift1 HL F C b : ℚ)
    (hC : C ≠ 0)
    (hlinUL : ∀ p ∈ Xul.zip Yul, p.2 = C * p.1 + b)
    (hlin : ∀ p ∈ X.zip Y, p.2 = C * p.1 + b)
    (href : olsDenom (refWindow Xul Yul Xul_min Xmax HL F) ≠ 0)
    (hcoarse : ∀ c ∈ (X_mid Xmin Xmax span shift).take (N_segments span shift).toNat,
        olsDenom (windowPts X Y c ((Xmax - Xmin) * span)) ≠ 0)
    (hfine : ∀ c ∈ X_mid_fine Xmin Xmax span shift shift1,
        olsDenom (windowPts X Y c ((Xmax - Xmin) * span)) ≠ 0) :
    refC0 Xul Yul Xul_min Xmax HL F = some C ∧
    coarseOffsets X Y Xmin Xmax span shift C =
      some (List.replicate
        ((X_mid Xmin Xmax span shift).take (N_segments span shift).toNat).length 0) ∧
    fineOffsets X Y Xmin Xmax span shift shift1 C =
      some (List.replicate (X_mid_fine Xmin Xmax span shift shift1).length 0) ∧
    complianceArm X Y Xmin Xmax span shift shift1 C = none := by
  have hwin : ∀ (c w : ℚ), ∀ p ∈ windowPts X Y c w, p.2 = C * p.1 + b := by
    intro c w p hp
    exact hlin p (List.mem_filter.mp hp).1
  have hoffzero : (C - C) * 100 / C = 0 := by
    rw [sub_self, zero_mul, zero_div]
  have hrefeq : refC0 Xul Yul Xul_min Xmax HL F = some C := by
    unfold refC0
    rw [@polyfit1_linear C b (refWindow Xul Yul Xul_min Xmax HL F)
      (fun p hp => hlinUL p (List.mem_filter.mp hp).1) href]
    rfl
  have hcoarseq : coarseOffsets X Y Xmin Xmax span shift C =
      some (List.replicate
        ((X_mid Xmin Xmax span shift).take (N_segments span shift).toNat).length 0) := by
    unfold coarseOffsets
    rw [optMapM_map_some _ (fun _ => C) _ (fun c hc => by
      rw [@polyfit1_linear C b (windowPts X Y c ((Xmax - Xmin) * span))
        (hwin c ((Xmax - Xmin) * span)) (hcoarse c hc)]
      rfl)]
    rw [Option.map_some', List.map_const', List.map_replicate, hoffzero]
  have hfineq : fineOffsets X Y Xmin Xmax span shift shift1 C =
      some (List.replicate (X_mid_fine Xmin Xmax span shift shift1).length 0) := by
    unfold fineOffsets
    rw [optMapM_map_some _ (fun _ => C) _ (fun c hc => by
      rw [@polyfit1_linear C b (windowPts X Y c ((Xmax - Xmin) * span))
        (hwin c ((Xmax - Xmin) * span)) (hfine c hc)]
      rfl)]
    rw [Option.map_some', List.map_const', List.map_replicate, hoffzero]
  refine ⟨hrefeq, hcoarseq, hfineq, ?_⟩
  have hxx : sumXX ((List.replicate (X_mid_fine Xmin Xmax span shift shift1).length
      (0 : ℚ)).zip (X_mid_fine Xmin Xmax span shift shift1)) = 0 := by
    apply List.sum_eq_zero
    intro v hv
    rw [List.mem_map] at hv
    obtain ⟨p, hp, hpv⟩ := hv
    have hfst : p.1 = 0 := by
      have hmem := List.of_mem_zip (by
        rw [show ((p.1, p.2) : ℚ × ℚ) = p from rfl]
        exact hp)
      exact List.eq_of_mem_replicate hmem.1
    rw [← hpv, hfst, mul_zero]
  unfold complianceArm
  simp only [hcoarseq, hfineq, polyfit1_none hxx]

/-- Witness for C2 (amended): the linear dataset `Ylin = 2*Xdata + 1`
instantiates every hypothesis; the offsets are all zero and the arm computation
fails at the boundary extrapolation. -/
theorem linear_roundtrip_offsets_zero_witness :
    refC0 Xdata Ylin 0 4 1 (1/4) = some 2 ∧
    coarseOffsets Xdata Ylin 0 4 (1/2) (1/2) 2 =
      some (List.replicate
        ((X_mid 0 4 (1/2) (1/2)).take (N_segments (1/2) (1/2)).toNat).length 0) ∧
    fineOffsets Xdata Ylin 0 4 (1/2) (1/2) (1/4) 2 =
      some (List.replicate (X_mid_fine 0 4 (1/2) (1/2) (1/4)).length 0) ∧
    complianceArm Xdata Ylin 0 4 (1/2) (1/2) (1/4) 2 = none :=
  linear_roundtrip_offsets_zero Xdata Ylin Xdata Ylin 0 0 4 (1/2) (1/2) (1/4) 1 (1/4) 2 1
    (by norm_num) (by decide) (by decide) (by decide) (by decide) (by decide)

/-- C8 (amended): a segment window containing no samples at all makes the
per-arm computation fail to the caller (`np.polyfit` raises on an empty
vector), for both the coarse and the fine grid.  A window with exactly one
sample does NOT fail — see the counterexample. -/
theorem empty_window_propagates_failure
    (X Y : List ℚ) (Xmin Xmax span shift shift1 C0 : ℚ)
    (h : (∃ c ∈ (X_mid Xmin Xmax span shift).take (N_segments span shift).toNat,
            windowPts X Y c ((Xmax - Xmin) * span) = []) ∨
         (∃ c ∈ X_mid_fine Xmin Xmax span shift shift1,
            windowPts X Y c ((Xmax - Xmin) * span) = [])) :
    complianceArm X Y Xmin Xmax span shift shift1 C0 = none := by
  rcases h with ⟨c, hc, hcw⟩ | ⟨c, hc, hcw⟩
  · have hco : coarseOffsets X Y Xmin Xmax span shift C0 = none := by
      unfold coarseOffsets
      rw [optMapM_eq_none _ c _ hc (by rw [hcw]; rfl)]
      rfl
    unfold complianceArm
    simp only [hco]
  · have hfo : fineOffsets X Y Xmin Xmax span shift shift1 C0 = none := by
      unfold fineOffsets
      rw [optMapM_eq_none _ c _ hc (by rw [hcw]; rfl)]
      rfl
    unfold complianceArm
    cases coarseOffsets X Y Xmin Xmax span shift C0 <;> simp only [hfo]

/-- Witness for C8 (amended): the arm `[0,1,3,7,8]` leaves the coarse window
centered at 5 (width 2) empty, and the whole computation fails. -/
theorem empty_window_propagates_failure_witness :
    complianceArm [0, 1, 3, 7, 8] [0, 0, 0, 0, 0] 0 8 (1/4) (1/4) (1/8) 1 = none :=
  empty_window_propagates_failure [0, 1, 3, 7, 8] [0, 0, 0, 0, 0] 0 8 (1/4) (1/4) (1/8) 1
    (Or.inl ⟨5, by decide, by decide⟩)

/-- C8 counterexample: the coarse segment center 3 of the `span = 1/2,
shift = 1/4` grid on `[0, 4]` has a window containing exactly one sample of the
arm `Xgap`, yet the estimator returns a result — `np.polyfit` silently
produces a degenerate (rank-deficient minimum-norm) fit for a single point
instead of raising. -/
theorem single_point_window_no_error_cex :
    3 ∈ (X_mid 0 4 (1/2) (1/4)).take (N_segments (1/2) (1/4)).toNat ∧
    (windowPts Xgap Ygap 3 ((4 - 0) * (1/2))).length = 1 ∧
    (complianceArm Xgap Ygap 0 4 (1/2) (1/4) (1/8) 1).isSome = true := by
  decide

/-- C9: when the first loading force sample exceeds `Xl_min`, the loading
arrays are truncated to start at the argmin of `|X - Xl_min|` (an in-range
index achieving the minimal distance); when it does not, no truncation happens;
and the unloading arm is always processed untrimmed. -/
theorem loading_trim_argmin :
    (∀ (X Y : List ℚ) (m x0 : ℚ), X.head? = some x0 → m < x0 →
        trimArm X Y m = (X.drop (argminIdx (X.map (fun x => |x - m|))),
          Y.drop (argminIdx (X.map (fun x => |x - m|)))) ∧
        argminIdx (X.map (fun x => |x - m|)) < X.length ∧
        (∀ j < X.length,
          |X.getD (argminIdx (X.map (fun x => |x - m|))) 0 - m| ≤ |X.getD j 0 - m|)) ∧
    (∀ (X Y : List ℚ) (m x0 : ℚ), X.head? = some x0 → x0 ≤ m → trimArm X Y m = (X, Y)) ∧
    (∀ (Xl Yl Xul Yul : List ℚ) (Xlm Xm Xum sp sh sh1 HL F : ℚ)
        (r : (List ℚ × List ℚ) × Option (List ℚ × List ℚ)),
      compliance_offset Xl Yl Xul Yul Xlm Xm Xum sp sh sh1 HL F 2 = some r →
      ∃ C0, refC0 Xul Yul Xum Xm HL F = some C0 ∧
        r.2 = complianceArm Xul Yul Xum Xm sp sh sh1 C0) := by
  refine ⟨?_, ?_, ?_⟩
  · intro X Y m x0 hh hm
    cases X with
    | nil => exact Option.noConfusion hh
    | cons a t =>
      have ha : a = x0 := Option.some_inj.mp hh
      subst ha
      have hmap : (a :: t).map (fun x => |x - m|) ≠ [] := by simp
      have hidx := argminIdx_spec ((a :: t).map (fun x => |x - m|)) hmap
      refine ⟨?_, ?_, ?_⟩
      · simp only [trimArm]
        rw [if_pos hm]
      · have := hidx.1
        rwa [List.length_map] at this
      · intro j hj
        have hj2 : j < ((a :: t).map (fun x => |x - m|)).length := by
          rwa [List.length_map]
        have hmin := hidx.2 j hj2
        have hi2 : argminIdx ((a :: t).map (fun x => |x - m|)) <
            ((a :: t).map (fun x => |x - m|)).length := hidx.1
        rw [List.getD_eq_getElem _ _ hi2, List.getElem_map] at hmin
        rw [List.getD_eq_getElem _ _ hj2, List.getElem_map] at hmin
        have hi3 : argminIdx ((a :: t).map (fun x => |x - m|)) < (a :: t).length := by
          rwa [List.length_map] at hi2
        rw [List.getD_eq_getElem _ _ hi3, List.getD_eq_getElem _ _ hj]
        exact hmin
  · intro X Y m x0 hh hle
    cases X with
    | nil => exact Option.noConfusion hh
    | cons a t =>
      have ha : a = x0 := Option.some_inj.mp hh
      subst ha
      simp only [trimArm]
      rw [if_neg (not_lt.mpr hle)]
  · intro Xl Yl Xul Yul Xlm Xm Xum sp sh sh1 HL F r hr
    unfold compliance_offset at hr
    cases hc0 : refC0 Xul Yul Xum Xm HL F with
    | none => simp only [hc0] at hr; exact Option.noConfusion hr
    | some C0 =>
      simp only [hc0] at hr
      cases hl : complianceArm (trimArm Xl Yl Xlm).1 (trimArm Xl Yl Xlm).2
          Xlm Xm sp sh sh1 C0 with
      | none => simp only [hl] at hr; exact Option.noConfusion hr
      | some l =>
        simp only [hl] at hr
        rw [if_pos (le_refl 2)] at hr
        cases hu : complianceArm Xul Yul Xum Xm sp sh sh1 C0 with
        | none => simp only [hu] at hr; exact Option.noConfusion hr
        | some u =>
          simp only [hu] at hr
          simp only [Option.some_inj] at hr
          subst hr
          exact ⟨C0, rfl, hu.symm⟩

/-- Witness for C9: a concrete trim — the arm `[3,1,2]` with `Xl_min = 0`
starts above the minimum, so both arrays are cut at the index of the force
nearest 0 — and a concrete two-arm run in which the unloading output equals the
untrimmed unloading arm computation at the recovered `C0 = 7`. -/
theorem loading_trim_argmin_witness :
    trimArm [3, 1, 2] [5, 6, 7] 0 = ([1, 2], [6, 7]) ∧
    (compliance_offset Xdata Ysq Xdata Ysq 0 4 0 (1/2) (1/2) (1/4) 1 (1/4) 2).map
      (fun r => r.2) = some (complianceArm Xdata Ysq 0 4 (1/2) (1/2) (1/4) 7) := by
  constructor
  · rw [(loading_trim_argmin.1 [3, 1, 2] [5, 6, 7] 0 3 rfl (by norm_num)).1]
    decide
  · cases hE : compliance_offset Xdata Ysq Xdata Ysq 0 4 0 (1/2) (1/2) (1/4) 1 (1/4) 2 with
    | none => exact absurd hE (by decide)
    | some r =>
      obtain ⟨C0, hC0, hr2⟩ :=
        loading_trim_argmin.2.2 Xdata Ysq Xdata Ysq 0 4 0 (1/2) (1/2) (1/4) 1 (1/4) r hE
      have hC07 : C0 = 7 := by
        have h7 : refC0 Xdata Ysq 0 4 1 (1/4) = some 7 := by decide
        rw [h7] at hC0
        exact (Option.some_inj.mp hC0).symm
      simp only [Option.map_some']
      rw [hr2, hC07]

end Picc
